import Mathlib

/-!
Verification of the fzf-open utility (src/fzf-open.go) against its
natural-language specification.  The Go program is shallowly embedded:
pure decision logic becomes Lean functions, the caches become explicit
state passing over association lists, external effects (file system,
PATH search, the xdg-mime tool, process start) become deterministic
oracles packaged in environment records, and the concurrency guarded by
sync.Once / the lock-protected maps becomes a step relation over traces
of atomic operations.
-/

namespace FzfOpen

/-- Lookup in an association list, newest entry first.  Models reading a
Go map where each write prepends the (key, value) pair. -/
def lookupAssoc (cache : List (String × String)) (k : String) : Option String :=
  match cache with
  | [] => none
  | (k2, v) :: rest => if k2 = k then some v else lookupAssoc rest k

/-- Go's strings.HasPrefix, modelled character-wise (equivalent to the
byte-wise original on valid UTF-8). -/
def strStarts (pre s : String) : Bool :=
  List.isPrefixOf pre.data s.data

/-- ASCII lowercasing of one character; the extensions and MIME strings
the program compares are all ASCII, so this models Go's unicode
lowercasing on the inputs that matter. -/
def charLower (c : Char) : Char :=
  if 65 ≤ c.toNat ∧ c.toNat ≤ 90 then Char.ofNat (c.toNat + 32) else c

/-- Go's strings.ToLower, restricted to the ASCII mapping. -/
def strLower (s : String) : String :=
  String.mk (s.data.map charLower)

/-- Drop the first character of a string (Go's s[1:] on the strings the
program slices, whose first character is always the one-byte dot). -/
def strDropOne (s : String) : String :=
  String.mk s.data.tail

/-- Auxiliary scan for Go's filepath.Ext: the input is the reversed
character list of the file name; `acc` collects the characters already
passed (in original order).  Go scans the string backwards, stops at a
path separator, and returns the suffix from the final dot. -/
def goExtAux : List Char → List Char → String
  | [], _ => ""
  | c :: rest, acc =>
    if c = '/' then ""
    else if c = '.' then String.mk ('.' :: acc)
    else goExtAux rest (c :: acc)

/-- Go's filepath.Ext: the suffix of the final path element beginning at
its final dot, or the empty string when there is no dot. -/
def goFilepathExt (s : String) : String :=
  goExtAux s.data.reverse []

/-- Extension extraction of openFileWithConfiguredApp (src/fzf-open.go
lines 590-596): take filepath.Ext of the base name; when nonempty, drop
the leading dot and lowercase; otherwise the extension stays empty (the
explicit dot-file branch in the code also assigns the empty string). -/
def computeExt (fileName : String) : String :=
  let extWithDot := goFilepathExt fileName
  if extWithDot ≠ "" then strLower (strDropOne extWithDot) else ""

/-- MIME constants of the configuration section (src/fzf-open.go lines
46-63). -/
def mimeText : String := "text/"

def mimeApplicationScript : String := "application/x-shellscript"

def mimeApplicationJS : String := "application/javascript"

def mimeApplicationJSON : String := "application/json"

def mimeApplicationXML : String := "application/xml"

def mimeInodeEmpty : String := "inode/x-empty"

def mimeImage : String := "image/"

def mimeVideo : String := "video/"

def mimeAudio : String := "audio/"

def mimePDF : String := "application/pdf"

def mimeWordDocx : String := "application/vnd.openxmlformats-officedocument.wordprocessingml.document"

def mimeWordDoc : String := "application/msword"

def mimeODT : String := "application/vnd.oasis.opendocument.text"

def mimeODS : String := "application/vnd.oasis.opendocument.spreadsheet"

def mimeExcel : String := "application/vnd.ms-excel"

def mimeExcelX : String := "application/vnd.openxmlformats-officedocument.spreadsheetml.sheet"

/-- Application associations (src/fzf-open.go lines 75-84). -/
structure AppAssociations where
  TextEditor : String
  PDFViewer : String
  ImageViewer : String
  VideoPlayer : String
  SpreadsheetEditor : String
  WebBrowser : String
  DocxViewer : String
  FallbackOpener : String

def appAssociations : AppAssociations :=
  { TextEditor := "zeditor"
    PDFViewer := "zathura"
    ImageViewer := "eog"
    VideoPlayer := "vlc"
    SpreadsheetEditor := "wps"
    WebBrowser := "thorium-browser"
    DocxViewer := "wps"
    FallbackOpener := "xdg-open" }

/-- Extension table keys (src/fzf-open.go lines 525-549), rendered as
lists of the map keys. -/
def extToPDFViewer : List String := ["pdf"]

def extToDocxViewer : List String := ["docx", "doc"]

def extToImageViewer : List String :=
  ["png", "jpg", "jpeg", "gif", "bmp", "webp", "svg", "ico", "tif", "tiff"]

def extToVideoPlayer : List String :=
  ["flv", "avi", "mov", "mp4", "mkv", "webm", "wmv", "mpeg", "mpg", "mp3",
   "ogg", "oga", "wav", "flac", "opus", "aac", "m4a"]

def extToSpreadsheet : List String := ["csv", "tsv", "ods", "xlsx"]

def extToWebBrowser : List String := ["htm", "html", "xhtml"]

def extToTextEditor : List String :=
  ["txt", "md", "markdown", "sh", "bash", "zsh", "fish", "py", "rb", "js",
   "jsx", "ts", "tsx", "c", "cpp", "h", "hpp", "java", "go", "rs", "php",
   "pl", "lua", "sql", "json", "yaml", "yml", "toml", "xml", "css", "scss",
   "less", "conf", "cfg", "log", "ini", "desktop", "service", "env",
   "gitignore", "dockerfile", ""]

/-- The text-likeness guard used for the empty-extension case
(src/fzf-open.go lines 619-625): the MIME type is empty, text-prefixed,
or one of the fixed text-like application MIME types. -/
def mimeIsTextLike (m : String) : Bool :=
  m = "" || strStarts mimeText m || m = mimeApplicationScript ||
    m = mimeApplicationJS || m = mimeApplicationJSON ||
    m = mimeApplicationXML || m = mimeInodeEmpty

/-- getAppByMIME (src/fzf-open.go lines 663-689): MIME-table lookup,
returning the empty string when no rule matches. -/
def getAppByMIME (mimeType : String) : String :=
  if strStarts mimeText mimeType ∨ mimeType = mimeApplicationScript ∨
      mimeType = mimeApplicationJS ∨ mimeType = mimeApplicationJSON ∨
      mimeType = mimeApplicationXML ∨ mimeType = mimeInodeEmpty then
    appAssociations.TextEditor
  else if strStarts mimeImage mimeType then appAssociations.ImageViewer
  else if strStarts mimeVideo mimeType ∨ strStarts mimeAudio mimeType then
    appAssociations.VideoPlayer
  else if mimeType = mimePDF then appAssociations.PDFViewer
  else if mimeType = mimeWordDocx ∨ mimeType = mimeWordDoc ∨ mimeType = mimeODT then
    appAssociations.DocxViewer
  else if mimeType = mimeODS ∨ mimeType = mimeExcel ∨ mimeType = mimeExcelX then
    appAssociations.SpreadsheetEditor
  else ""

/-- The extension phase of the application selection
(src/fzf-open.go lines 599-631): the if-else chain over the extension
tables, with the conditional MIME guard for the empty extension.  The
empty string means no extension-based match. -/
def selectAppExt (ext mimeType : String) : String :=
  if extToPDFViewer.contains ext then appAssociations.PDFViewer
  else if extToDocxViewer.contains ext then appAssociations.DocxViewer
  else if extToImageViewer.contains ext then appAssociations.ImageViewer
  else if extToVideoPlayer.contains ext then appAssociations.VideoPlayer
  else if extToSpreadsheet.contains ext then appAssociations.SpreadsheetEditor
  else if extToWebBrowser.contains ext then appAssociations.WebBrowser
  else if extToTextEditor.contains ext then
    if ext = "" then
      if mimeIsTextLike mimeType then appAssociations.TextEditor else ""
    else appAssociations.TextEditor
  else ""

/-- The full pure selection logic of openFileWithConfiguredApp
(src/fzf-open.go lines 599-642): extension phase first, then the MIME
fallback (skipped when the MIME string is empty).  The empty string
means no application was selected and the caller must use the fallback
opener. -/
def selectApp (ext mimeType : String) : String :=
  let a := selectAppExt ext mimeType
  if a = "" then
    if mimeType = "" then "" else getAppByMIME mimeType
  else a

/-- Environment oracle for the MIME resolver: whether cachedLookPath
succeeds for xdg-mime, and the outcome of running the tool on a path
(`none` models every failure of cmd.Output: the 500 ms timeout and a
nonzero exit alike; `some out` is the raw standard output). -/
structure MimeEnv where
  xdgMimeAvailable : Bool
  xdgMimeOut : String → Option String

/-- State threaded through getMimeType: the mimeCache map and a count of
invocations of the external tool (for stating that a call performs no
further external query). -/
structure MimeState where
  cache : List (String × String)
  toolCalls : Nat

/-- The extension-based shortcut of getMimeType (src/fzf-open.go lines
708-746): for a fixed set of common extensions the MIME string is
synthesized without calling the tool.  Returns none when the switch
falls through. -/
def shortcutMime (filePath : String) : Option String :=
  let ext := goFilepathExt filePath
  if ext ≠ "" then
    let lowerExt := strLower ext
    if lowerExt = ".txt" ∨ lowerExt = ".md" ∨ lowerExt = ".log" ∨
        lowerExt = ".conf" ∨ lowerExt = ".cfg" then some (mimeText ++ "plain")
    else if lowerExt = ".json" then some mimeApplicationJSON
    else if lowerExt = ".xml" then some mimeApplicationXML
    else if lowerExt = ".pdf" then some mimePDF
    else if lowerExt = ".png" ∨ lowerExt = ".jpg" ∨ lowerExt = ".jpeg" ∨
        lowerExt = ".gif" ∨ lowerExt = ".bmp" ∨ lowerExt = ".webp" ∨
        lowerExt = ".svg" then some (mimeImage ++ strDropOne lowerExt)
    else if lowerExt = ".mp4" ∨ lowerExt = ".avi" ∨ lowerExt = ".mkv" ∨
        lowerExt = ".mov" then some (mimeVideo ++ strDropOne lowerExt)
    else none
  else none

/-- The output trim of getMimeType (src/fzf-open.go lines 764-775):
strip trailing newline, carriage return, space and tab, then leading
space and tab. -/
def trimToolOutput (s : String) : String :=
  let l1 := (s.data.reverse.dropWhile
    (fun c => c = '\n' ∨ c = '\r' ∨ c = ' ' ∨ c = '\t')).reverse
  String.mk (l1.dropWhile (fun c => c = ' ' ∨ c = '\t'))

/-- getMimeType (src/fzf-open.go lines 698-783): cache first, then the
extension shortcut (which caches), then the external tool via the path
cache; tool lookup failure and tool invocation failure both yield the
empty string, and only a completed tool run caches its trimmed
output. -/
def getMimeType (env : MimeEnv) (st : MimeState) (filePath : String) :
    String × MimeState :=
  match lookupAssoc st.cache filePath with
  | some cached => (cached, st)
  | none =>
    match shortcutMime filePath with
    | some m => (m, { st with cache := (filePath, m) :: st.cache })
    | none =>
      if env.xdgMimeAvailable then
        match env.xdgMimeOut filePath with
        | none => ("", { st with toolCalls := st.toolCalls + 1 })
        | some out =>
          let m := trimToolOutput out
          (m, { cache := (filePath, m) :: st.cache,
                toolCalls := st.toolCalls + 1 })
      else ("", st)

/-- Environment oracle for the path cache: the deterministic result of
exec.LookPath (none = not found), and whether os.Stat succeeds for an
absolute candidate. -/
structure PathEnv where
  lookPath : String → Option String
  statOk : String → Bool

/-- State threaded through cachedLookPath: the pathCache map and a count
of external PATH searches (exec.LookPath invocations). -/
structure PathState where
  cache : List (String × String)
  searches : Nat

/-- Go's filepath.IsAbs on unix: the path starts with a slash. -/
def isAbsPath (s : String) : Bool :=
  strStarts "/" s

/-- cachedLookPath (src/fzf-open.go lines 786-840): cache hit first;
then the builtin names cd, echo and exit resolve to themselves; then an
absolute path is accepted by existence check; otherwise exec.LookPath
runs with a 100 ms bound.  The timeout and the not-found error are both
modelled by the error result without a cache write; a successful search
is cached.  The error payload is unit: callers only branch on
success. -/
def cachedLookPath (env : PathEnv) (st : PathState) (name : String) :
    Except Unit String × PathState :=
  match lookupAssoc st.cache name with
  | some p => (.ok p, st)
  | none =>
    if name = "cd" ∨ name = "echo" ∨ name = "exit" then
      (.ok name, { st with cache := (name, name) :: st.cache })
    else if isAbsPath name then
      if env.statOk name then
        (.ok name, { st with cache := (name, name) :: st.cache })
      else (.error (), st)
    else
      match env.lookPath name with
      | some p =>
        (.ok p, { cache := (name, p) :: st.cache,
                  searches := st.searches + 1 })
      | none => (.error (), { st with searches := st.searches + 1 })

/-- The fixed list pre-warmed by the background cache initializer
(src/fzf-open.go lines 140-141). -/
def commonCommands : List String :=
  ["xdg-mime", "sh", "bash", "zsh", "fish", "fzf", "zeditor", "zathura",
   "eog", "vlc", "wps", "thorium-browser", "xdg-open"]

/-- One atomic operation on the shared path cache: a synchronous
cachedLookPath call, or the map write performed by one background
pre-warm worker (src/fzf-open.go lines 150-174; the worker writes only
when its exec.LookPath succeeded, and only for names from
commonCommands). -/
inductive PathOp where
  | lookup (name : String)
  | prewarm (name : String)

/-- Interleaving step for the path cache: each operation runs with the
lock discipline of the source, so a trace of operations models one
interleaving of the concurrent callers. -/
def stepPath (env : PathEnv) (st : PathState) : PathOp → PathState
  | .lookup n => (cachedLookPath env st n).2
  | .prewarm n =>
    if commonCommands.contains n then
      match env.lookPath n with
      | some p => { st with cache := (n, p) :: st.cache,
                            searches := st.searches + 1 }
      | none => { st with searches := st.searches + 1 }
    else st

/-- Run a trace of path-cache operations from a starting state. -/
def runPath (env : PathEnv) (st : PathState) : List PathOp → PathState
  | [] => st
  | op :: rest => runPath env (stepPath env st op) rest

/-- The value any writer stores for a given key, determined by the
environment alone: builtins and existing absolute paths resolve to
themselves, everything else to the deterministic search result. -/
def canonicalPath (env : PathEnv) (name : String) : Option String :=
  if name = "cd" ∨ name = "echo" ∨ name = "exit" then some name
  else if isAbsPath name then
    if env.statOk name then some name else none
  else env.lookPath name

/-- The initial (empty) path-cache state. -/
def initPathState : PathState :=
  { cache := [], searches := 0 }

/-- The candidate list raced by detectUserShell (src/fzf-open.go line
192). -/
def possibleShells : List String :=
  ["zsh", "bash", "fish", "dash", "sh"]

/-- The valid-shell set (src/fzf-open.go lines 103-112). -/
def validShells : List String :=
  ["bash", "zsh", "fish", "dash", "sh", "ksh", "csh", "tcsh"]

/-- Go's filepath.Base on unix: empty input gives a dot, trailing
slashes are dropped, an all-slash input gives a slash, otherwise the
last path element. -/
def goFilepathBase (p : String) : String :=
  if p = "" then "."
  else
    let l := p.data.reverse.dropWhile (fun c => c = '/')
    if l = [] then "/"
    else String.mk ((l.takeWhile (fun c => c ≠ '/')).reverse)

/-- Environment for shell detection: the SHELL environment variable
(empty when unset) and the deterministic PATH search. -/
structure ShellEnv where
  shellVar : String
  lookPath : String → Option String

/-- Outcome of the concurrent candidate race in detectUserShell:
either some goroutine delivered a winner before the 200 ms timer, or
the timer fired first. -/
inductive RaceOutcome where
  | winner (s : String)
  | timeout

/-- A race outcome is possible only if the winner is one of the raced
candidates and its lookup actually succeeded. -/
def raceValid (env : ShellEnv) : RaceOutcome → Prop
  | .winner s => possibleShells.contains s = true ∧ (env.lookPath s).isSome
  | .timeout => True

/-- The fast path of detectUserShell (src/fzf-open.go lines 182-189):
the SHELL variable is set and its base name is a valid shell. -/
def shellFastPath (env : ShellEnv) : Bool :=
  env.shellVar ≠ "" && validShells.contains (goFilepathBase env.shellVar)

/-- detectUserShell (src/fzf-open.go lines 180-223) as a function of the
environment and of the nondeterministic race outcome: fast path via the
SHELL variable, otherwise the race winner, otherwise the literal sh on
timeout. -/
def detectUserShell (env : ShellEnv) (race : RaceOutcome) : String :=
  if shellFastPath env then goFilepathBase env.shellVar
  else
    match race with
    | .winner s => s
    | .timeout => "sh"

/-- State of the process-wide shell singleton: whether shellDetectOnce
has fired, and the current value of defaultConfig.ShellToUse (empty at
start, src/fzf-open.go line 72). -/
structure OnceState where
  onceDone : Bool
  shell : String

/-- The two call sites of the detection logic: the background start-up
goroutine (src/fzf-open.go lines 130-134) and the on-demand call before
spawning a terminal (lines 413-416), which first tests the singleton
for emptiness. -/
inductive ShellCallSite where
  | background
  | onDemand

/-- One call-site execution under sync.Once semantics.  The second
component reports whether the detection logic actually ran. -/
def stepOnce (env : ShellEnv) (race : RaceOutcome) (st : OnceState) :
    ShellCallSite → OnceState × Bool
  | .background =>
    if st.onceDone then (st, false)
    else ({ onceDone := true, shell := detectUserShell env race }, true)
  | .onDemand =>
    if st.shell ≠ "" then (st, false)
    else if st.onceDone then (st, false)
    else ({ onceDone := true, shell := detectUserShell env race }, true)

/-- Run a trace of call sites, counting how many times the detection
logic ran. -/
def runOnce (env : ShellEnv) (race : RaceOutcome) (st : OnceState) :
    List ShellCallSite → OnceState × Nat
  | [] => (st, 0)
  | c :: rest =>
    let r := stepOnce env race st c
    let r2 := runOnce env race r.1 rest
    (r2.1, (if r.2 then 1 else 0) + r2.2)

/-- The initial singleton state of the process. -/
def initOnceState : OnceState :=
  { onceDone := false, shell := "" }

/-- Go's strings.Fields restricted to ASCII whitespace: the maximal
whitespace-separated substrings. -/
def strFields (s : String) : List String :=
  (s.data.splitOnP (fun c => c = ' ' ∨ c = '\t' ∨ c = '\n' ∨ c = '\r')).filterMap
    (fun w => if w = [] then none else some (String.mk w))

/-- Environment for the launcher: the outcome of resolving a program
name through the path cache (abstracted to its result), and whether
cmd.Start succeeds for a resolved program with given arguments. -/
structure LaunchEnv where
  resolve : String → Option String
  startOk : String → List String → Bool

/-- launchApp (src/fzf-open.go lines 843-892): reject the empty command,
split on whitespace, resolve the program, append the file path last and
start the detached process.  The unused childExit argument records that
the child's eventual exit status is never consulted: the function
returns immediately after a successful start. -/
def launchApp (env : LaunchEnv) (appCommand filePath : String)
    (childExit : Nat) : Bool :=
  if appCommand = "" then false
  else
    match strFields appCommand with
    | [] => false
    | appName :: appArgs =>
      match env.resolve appName with
      | none => false
      | some appPath =>
        if env.startOk appPath (appArgs ++ [filePath]) then true else false

/-- File-system environment for the starting-directory phase: whether a
path stats successfully as a directory, and the home directory (none
models the case where userHomeDir is empty and tilde expansion fails
because the current user cannot be determined). -/
structure FSEnv where
  isDir : String → Bool
  home : Option String

/-- Outcome of the directory-validation prelude of getPathViaFZF
(src/fzf-open.go lines 356-389): either the directory the picker will
be started in, or the error return taken when the home directory cannot
be determined or the fallback directory is also invalid (the 100 ms
verification timeout is folded into the invalid case, as both return
the error). -/
inductive DirPhase where
  | ok (dir : String)
  | err

/-- The starting-directory check and home fallback of getPathViaFZF. -/
def dirPhase (env : FSEnv) (startingDir : String) : DirPhase :=
  if env.isDir startingDir then .ok startingDir
  else
    match env.home with
    | none => .err
    | some h => if env.isDir h then .ok h else .err

/-- Outcome of a whole run: the process exit code and whether the picker
was ever invoked (getPathViaFZF returns before building the fzf command
whenever the directory phase fails). -/
structure MainOutcome where
  exitCode : Nat
  pickerInvoked : Bool
  deriving DecidableEq

/-- main (src/fzf-open.go lines 251-282) abstracted over the picker and
the file-opening pipeline: a directory-phase error exits 0 without
running the picker (main treats every getPathViaFZF error this way,
line 268); an empty selection exits 0; a failed open exits 1; otherwise
the process ends normally with 0. -/
def mainModel (env : FSEnv) (startingDir : String)
    (picker : String → Option String) (openOk : String → Bool) : MainOutcome :=
  match dirPhase env startingDir with
  | .err => { exitCode := 0, pickerInvoked := false }
  | .ok dir =>
    match picker dir with
    | none => { exitCode := 0, pickerInvoked := true }
    | some p =>
      if openOk p then { exitCode := 0, pickerInvoked := true }
      else { exitCode := 1, pickerInvoked := true }

/-!
Helper lemmas about the extension scan.
-/

lemma goExtAux_no_dot (l : List Char) : ∀ acc, '.' ∉ l → '/' ∉ l →
    goExtAux l acc = "" := by
  induction l with
  | nil => intro acc _ _; rfl
  | cons c t ih =>
    intro acc hd hs
    simp only [List.mem_cons, not_or] at hd hs
    simp only [goExtAux]
    rw [if_neg (fun h => hs.1 h.symm), if_neg (fun h => hd.1 h.symm)]
    exact ih _ hd.2 hs.2

lemma goExtAux_first_dot (l : List Char) : ∀ acc, '/' ∉ l → '.' ∈ l →
    ∃ pre, '.' ∉ pre ∧ goExtAux l acc = String.mk ('.' :: (pre ++ acc)) ∧
      (pre = [] ↔ l.head? = some '.') := by
  induction l with
  | nil => intro acc _ hd; simp at hd
  | cons c t ih =>
    intro acc hs hd
    simp only [List.mem_cons, not_or] at hs
    by_cases hc : c = '.'
    · subst hc
      refine ⟨[], by simp, ?_, by simp⟩
      simp [goExtAux]
    · have hdt : '.' ∈ t := by
        rcases List.mem_cons.mp hd with h | h
        · exact absurd h.symm hc
        · exact h
      obtain ⟨pre, hp1, hp2, hp3⟩ := ih (c :: acc) hs.2 hdt
      have hnotin : '.' ∉ pre ++ [c] := by
        simp only [List.mem_append, List.mem_singleton]
        rintro (h | h)
        · exact hp1 h
        · exact hc h.symm
      refine ⟨pre ++ [c], hnotin, ?_, ?_⟩
      · simp only [goExtAux]
        rw [if_neg (fun h => hs.1 h.symm), if_neg hc, hp2]
        simp
      · simp [hc]

lemma goExtAux_append_dot (l : List Char) : ∀ acc, '.' ∉ l → '/' ∉ l →
    goExtAux (l ++ ['.']) acc = String.mk ('.' :: (l.reverse ++ acc)) := by
  induction l with
  | nil => intro acc _ _; simp [goExtAux]
  | cons c t ih =>
    intro acc hd hs
    simp only [List.mem_cons, not_or] at hd hs
    have hstep : (c :: t) ++ ['.'] = c :: (t ++ ['.']) := rfl
    rw [hstep]
    simp only [goExtAux]
    rw [if_neg (fun h => hs.1 h.symm), if_neg (fun h => hd.1 h.symm), ih _ hd.2 hs.2]
    simp

lemma mk_cons_ne_empty (c : Char) (l : List Char) : String.mk (c :: l) ≠ "" := by
  intro h
  have h2 : (String.mk (c :: l)).data = ("" : String).data := by rw [h]
  simp at h2

/-!
Claim theorems.
-/

/-- C3: application selection from (extension, MIME type) is a pure
deterministic Lean function of its two arguments (by construction of
the embedding); extension pdf selects the PDF viewer whatever the MIME
type is, the empty extension with MIME text/plain selects the text
editor, and an unknown extension with MIME application/octet-stream
selects no application, so the fallback opener is required. -/
theorem c3_dispatch_selector_pure :
    (∀ mimeType : String, selectApp "pdf" mimeType = appAssociations.PDFViewer) ∧
    selectApp "" "text/plain" = appAssociations.TextEditor ∧
    selectApp "unknownext" "application/octet-stream" = "" :=
  ⟨fun _ => rfl, rfl, rfl⟩

/-- C5: for the empty extension with MIME application/octet-stream the
extension phase declines (the text-likeness guard fails), the MIME
table also yields no application, and the overall selection is empty,
so the caller must fall back to the generic opener. -/
theorem c5_empty_ext_octet_stream_none :
    selectAppExt "" "application/octet-stream" = "" ∧
    getAppByMIME "application/octet-stream" = "" ∧
    selectApp "" "application/octet-stream" = "" :=
  ⟨rfl, rfl, rfl⟩

/-- C10 (counterexample): the base name "foo." contains a dot, yet the
computed extension is empty and lies in the text-editor table, so the
empty-extension branch with its MIME guard is reached for a name that
does contain a dot — refuting the claim that the branch is reached only
for base names containing no dot at all. -/
theorem c10_counterexample_trailing_dot :
    computeExt "foo." = "" ∧ '.' ∈ "foo.".data ∧
    extToTextEditor.contains (computeExt "foo.") = true :=
  ⟨rfl, by decide, rfl⟩

/-- C10 (amended): for a base name consisting of a leading dot followed
by dot-free, slash-free rest, the computed extension is the lowercased
rest (so ".bashrc" yields "bashrc", not the empty string); and the
empty-extension branch is reached exactly for base names that either
contain no dot at all or end in a dot. -/
theorem c10_dotfile_extension_amended :
    (∀ rest : String, '.' ∉ rest.data → '/' ∉ rest.data →
      computeExt ("." ++ rest) = strLower rest) ∧
    (∀ name : String, '/' ∉ name.data →
      (computeExt name = "" ↔ '.' ∉ name.data ∨ name.data.getLast? = some '.')) := by
  constructor
  · intro rest hd hs
    obtain ⟨ld⟩ := rest
    have hdata : ("." ++ String.mk ld).data = '.' :: ld := by
      simp [String.data_append]
    have hx : goFilepathExt ("." ++ String.mk ld) = String.mk ('.' :: ld) := by
      rw [goFilepathExt, hdata, List.reverse_cons,
        goExtAux_append_dot _ _ (by simpa using hd) (by simpa using hs)]
      simp
    rw [computeExt, hx]
    rw [if_pos (mk_cons_ne_empty _ _)]
    rfl
  · intro name hs
    obtain ⟨l⟩ := name
    by_cases hd : '.' ∈ l
    · obtain ⟨pre, hp1, hp2, hp3⟩ :=
        goExtAux_first_dot l.reverse [] (by simpa using hs) (by simpa using hd)
      have hx : goFilepathExt (String.mk l) = String.mk ('.' :: pre) := by
        rw [goFilepathExt] at *
        simpa using hp2
      rw [computeExt, hx, if_pos (mk_cons_ne_empty _ _)]
      have hlast : l.getLast? = some '.' ↔ pre = [] := by
        rw [← List.head?_reverse]
        exact hp3.symm
      constructor
      · intro h
        have hnil : pre.map charLower = [] := by
          have h2 := congrArg String.data h
          simpa [strLower, strDropOne] using h2
        right
        rw [hlast]
        exact List.map_eq_nil_iff.mp hnil
      · rintro (h | h)
        · exact absurd hd h
        · have hpre : pre = [] := hlast.mp h
          subst hpre
          rfl
    · have hx : goFilepathExt (String.mk l) = "" := by
        rw [goFilepathExt]
        exact goExtAux_no_dot _ _ (by simpa using hd) (by simpa using hs)
      rw [computeExt, hx]
      simp [hd]

/-- C10 (witness): the amended theorem evaluated at ".bashrc" (built as
the literal dot prepended to "bashrc") and at the dot-free name
"Makefile". -/
theorem c10_dotfile_extension_witness :
    computeExt ("." ++ "bashrc") = strLower "bashrc" ∧
    (computeExt "Makefile" = "" ↔
      '.' ∉ "Makefile".data ∨ "Makefile".data.getLast? = some '.') :=
  ⟨c10_dotfile_extension_amended.1 "bashrc" (by decide) (by decide),
   c10_dotfile_extension_amended.2 "Makefile" (by decide)⟩

lemma getMimeType_cached (env : MimeEnv) (st : MimeState) (p v : String)
    (h : lookupAssoc st.cache p = some v) : getMimeType env st p = (v, st) := by
  simp [getMimeType, h]

/-- An environment in which the external MIME tool is present but fails
(times out or exits nonzero) on every input. -/
def mimeEnvFailTool : MimeEnv :=
  { xdgMimeAvailable := true, xdgMimeOut := fun _ => none }

/-- C2 (counterexample): with the tool present but failing, a first call
on "foo.bin" (no shortcut extension) invokes the tool, caches nothing,
and a second call on the same path invokes the external tool again —
refuting the claim that the second of two queries for any path is
answered from the cache without another tool invocation. -/
theorem c2_counterexample_tool_failure :
    (getMimeType mimeEnvFailTool { cache := [], toolCalls := 0 } "foo.bin").2.toolCalls = 1 ∧
    lookupAssoc (getMimeType mimeEnvFailTool { cache := [], toolCalls := 0 } "foo.bin").2.cache
      "foo.bin" = none ∧
    (getMimeType mimeEnvFailTool
      (getMimeType mimeEnvFailTool { cache := [], toolCalls := 0 } "foo.bin").2
      "foo.bin").2.toolCalls = 2 :=
  ⟨rfl, rfl, rfl⟩

/-- C2 (amended): whenever the first query for a path determines a MIME
type that gets cached — a prior cache entry, a shortcut-table hit, or a
successful run of the external tool — the value is in the cache after
the first call, and the second call returns exactly that value with no
further tool invocation.  (When the tool fails, nothing is cached and a
later call consults the tool again, as the counterexample shows.) -/
theorem c2_mime_cache_amended (env : MimeEnv) (st : MimeState) (p : String)
    (h : lookupAssoc st.cache p ≠ none ∨ shortcutMime p ≠ none ∨
      (env.xdgMimeAvailable = true ∧ env.xdgMimeOut p ≠ none)) :
    lookupAssoc (getMimeType env st p).2.cache p = some (getMimeType env st p).1 ∧
    (getMimeType env (getMimeType env st p).2 p).1 = (getMimeType env st p).1 ∧
    (getMimeType env (getMimeType env st p).2 p).2.toolCalls =
      (getMimeType env st p).2.toolCalls := by
  have hcache : lookupAssoc (getMimeType env st p).2.cache p =
      some (getMimeType env st p).1 := by
    cases hl : lookupAssoc st.cache p with
    | some v => simp [getMimeType, hl, lookupAssoc]
    | none =>
      cases hsc : shortcutMime p with
      | some m => simp [getMimeType, hl, hsc, lookupAssoc]
      | none =>
        rcases h with h | h | h
        · exact absurd hl h
        · exact absurd hsc h
        · cases ho : env.xdgMimeOut p with
          | none => exact absurd ho h.2
          | some out => simp [getMimeType, hl, hsc, h.1, ho, lookupAssoc]
  refine ⟨hcache, ?_, ?_⟩ <;> rw [getMimeType_cached env _ p _ hcache]

/-- An environment in which the external MIME tool is present and
succeeds, for exercising the amended cache theorem. -/
def mimeEnvGoodTool : MimeEnv :=
  { xdgMimeAvailable := true, xdgMimeOut := fun _ => some " application/x-custom\n" }

/-- C2 (witness): the amended theorem at a concrete path whose first
query runs the tool successfully. -/
theorem c2_mime_cache_witness :
    lookupAssoc (getMimeType mimeEnvGoodTool { cache := [], toolCalls := 0 } "foo.bin").2.cache
      "foo.bin" = some (getMimeType mimeEnvGoodTool { cache := [], toolCalls := 0 } "foo.bin").1 ∧
    (getMimeType mimeEnvGoodTool
      (getMimeType mimeEnvGoodTool { cache := [], toolCalls := 0 } "foo.bin").2 "foo.bin").1 =
      (getMimeType mimeEnvGoodTool { cache := [], toolCalls := 0 } "foo.bin").1 ∧
    (getMimeType mimeEnvGoodTool
      (getMimeType mimeEnvGoodTool { cache := [], toolCalls := 0 } "foo.bin").2 "foo.bin").2.toolCalls =
      (getMimeType mimeEnvGoodTool { cache := [], toolCalls := 0 } "foo.bin").2.toolCalls :=
  c2_mime_cache_amended mimeEnvGoodTool { cache := [], toolCalls := 0 } "foo.bin"
    (Or.inr (Or.inr ⟨rfl, by simp [mimeEnvGoodTool]⟩))

/-- C8: MIME resolution is total by construction (the embedding returns
a plain string, mirroring the Go signature, and the one Go error value
is swallowed inside); on a cache miss with no shortcut-table hit it
returns the empty string both when the external tool is unavailable and
when the tool invocation fails (timeout or nonzero exit, both modelled
by the absent tool output). -/
theorem c8_mime_resolution_total (env : MimeEnv) (st : MimeState) (p : String)
    (hc : lookupAssoc st.cache p = none) (hs : shortcutMime p = none)
    (hf : env.xdgMimeAvailable = false ∨ env.xdgMimeOut p = none) :
    (getMimeType env st p).1 = "" := by
  rcases hf with hf | hf
  · simp [getMimeType, hc, hs, hf]
  · cases ha : env.xdgMimeAvailable <;> simp [getMimeType, hc, hs, hf, ha]

/-- An environment with no MIME tool installed at all. -/
def mimeEnvNoTool : MimeEnv :=
  { xdgMimeAvailable := false, xdgMimeOut := fun _ => none }

/-- C8 (witness): the totality theorem at a concrete path with the tool
missing. -/
theorem c8_mime_resolution_witness :
    (getMimeType mimeEnvNoTool { cache := [], toolCalls := 0 } "foo.bin").1 = "" :=
  c8_mime_resolution_total mimeEnvNoTool { cache := [], toolCalls := 0 } "foo.bin"
    rfl rfl (Or.inl rfl)

/-- C9: the launcher returns the boolean failure value (the embedding
returns Bool, mirroring the Go signature — nothing is thrown or
propagated) when the program name does not resolve or when the process
fails to start; a successful start returns true; and the result never
depends on the child's eventual exit status, so success is reported
immediately upon starting, independent of how the child later
exits. -/
theorem c9_launcher_failure_value (env : LaunchEnv) (appCommand filePath : String)
    (e1 e2 : Nat) :
    (∀ nm args, strFields appCommand = nm :: args → env.resolve nm = none →
      launchApp env appCommand filePath e1 = false) ∧
    (∀ nm args pth, strFields appCommand = nm :: args → env.resolve nm = some pth →
      env.startOk pth (args ++ [filePath]) = false →
      launchApp env appCommand filePath e1 = false) ∧
    (∀ nm args pth, strFields appCommand = nm :: args → env.resolve nm = some pth →
      env.startOk pth (args ++ [filePath]) = true →
      launchApp env appCommand filePath e1 = true) ∧
    launchApp env appCommand filePath e1 = launchApp env appCommand filePath e2 := by
  have hne : ∀ nm args, strFields appCommand = nm :: args → ¬appCommand = "" := by
    intro nm args hfields hch
    subst hch
    have hnil : strFields "" = [] := rfl
    rw [hnil] at hfields
    exact List.noConfusion hfields
  refine ⟨?_, ?_, ?_, rfl⟩
  · intro nm args hfields hres
    simp [launchApp, hne nm args hfields, hfields, hres]
  · intro nm args pth hfields hres hstart
    simp [launchApp, hne nm args hfields, hfields, hres, hstart]
  · intro nm args pth hfields hres hstart
    simp [launchApp, hne nm args hfields, hfields, hres, hstart]

/-- An environment in which no program name resolves. -/
def launchEnvNone : LaunchEnv :=
  { resolve := fun _ => none, startOk := fun _ _ => false }

/-- An environment in which one program resolves and every start
succeeds. -/
def launchEnvGood : LaunchEnv :=
  { resolve := fun n => if n = "wps" then some "/usr/bin/wps" else none,
    startOk := fun _ _ => true }

/-- C9 (witness): the launcher theorem at a concrete two-word command,
once under an environment where the program name does not resolve
(failure value) and once under an environment where it resolves and
the start succeeds (immediate success). -/
theorem c9_launcher_failure_witness :
    launchApp launchEnvNone "wps -o" "/tmp/x" 0 = false ∧
    launchApp launchEnvGood "wps -o" "/tmp/x" 0 = true :=
  ⟨(c9_launcher_failure_value launchEnvNone "wps -o" "/tmp/x" 0 1).1 "wps" ["-o"] rfl rfl,
   (c9_launcher_failure_value launchEnvGood "wps -o" "/tmp/x" 0 1).2.2.1 "wps" ["-o"]
     "/usr/bin/wps" rfl rfl rfl⟩

lemma validShells_contains_ne_empty (x : String)
    (h : validShells.contains x = true) : x ≠ "" := by
  simp [validShells, List.contains] at h
  rcases h with h | h | h | h | h | h | h | h <;> subst h <;> decide

lemma possibleShells_subset_valid (s : String)
    (h : possibleShells.contains s = true) : validShells.contains s = true := by
  simp [possibleShells, List.contains] at h
  rcases h with h | h | h | h | h <;> subst h <;> rfl

/-- C6: under any environment and any possible outcome of the candidate
race, the detected shell is nonempty and lies in the valid-shell set;
and when the fast path fails and no candidate resolves within the
bounded wait (the timeout outcome), the result is exactly "sh" (the
code also prints the warning on that branch, src/fzf-open.go line
221). -/
theorem c6_detected_shell_valid (env : ShellEnv) (race : RaceOutcome)
    (h : raceValid env race) :
    detectUserShell env race ≠ "" ∧
    validShells.contains (detectUserShell env race) = true ∧
    (shellFastPath env = false → race = RaceOutcome.timeout →
      detectUserShell env race = "sh") := by
  by_cases hf : shellFastPath env = true
  · have hbase : validShells.contains (goFilepathBase env.shellVar) = true := by
      have h2 := hf
      simp [shellFastPath] at h2
      exact List.elem_eq_true_of_mem h2.2
    refine ⟨?_, ?_, ?_⟩
    · rw [detectUserShell.eq_def, if_pos hf]
      exact validShells_contains_ne_empty _ hbase
    · rw [detectUserShell.eq_def, if_pos hf]
      exact hbase
    · intro hff
      rw [hf] at hff
      exact absurd hff (by decide)
  · have hf2 : shellFastPath env = false := by
      cases hq : shellFastPath env
      · rfl
      · exact absurd hq hf
    cases race with
    | winner s =>
      have hv : validShells.contains s = true := possibleShells_subset_valid s h.1
      refine ⟨?_, ?_, ?_⟩
      · rw [detectUserShell.eq_def, if_neg hf]
        exact validShells_contains_ne_empty _ hv
      · rw [detectUserShell.eq_def, if_neg hf]
        exact hv
      · intro _ hr
        exact absurd hr (by simp)
    | timeout =>
      refine ⟨?_, ?_, ?_⟩
      · rw [detectUserShell.eq_def, if_neg hf]
        decide
      · rw [detectUserShell.eq_def, if_neg hf]
        rfl
      · intro _ _
        rw [detectUserShell.eq_def, if_neg hf]

/-- An environment with no SHELL variable and no resolvable candidate:
every lookup fails, so only the timeout outcome is possible. -/
def shellEnvBare : ShellEnv :=
  { shellVar := "", lookPath := fun _ => none }

/-- C6 (witness): the detection theorem under the bare environment with
the timeout outcome. -/
theorem c6_detected_shell_witness :
    detectUserShell shellEnvBare RaceOutcome.timeout ≠ "" ∧
    validShells.contains (detectUserShell shellEnvBare RaceOutcome.timeout) = true ∧
    (shellFastPath shellEnvBare = false → RaceOutcome.timeout = RaceOutcome.timeout →
      detectUserShell shellEnvBare RaceOutcome.timeout = "sh") :=
  c6_detected_shell_valid shellEnvBare RaceOutcome.timeout trivial


lemma stepOnce_of_done (env : ShellEnv) (race : RaceOutcome) (st : OnceState)
    (c : ShellCallSite) (h : st.onceDone = true) : stepOnce env race st c = (st, false) := by
  cases c <;> simp [stepOnce, h]

lemma runOnce_of_done (env : ShellEnv) (race : RaceOutcome) (st : OnceState)
    (h : st.onceDone = true) : ∀ t, runOnce env race st t = (st, 0) := by
  intro t
  induction t with
  | nil => rfl
  | cons c rest ih => simp [runOnce, stepOnce_of_done env race st c h, ih]

lemma runOnce_init_cons (env : ShellEnv) (race : RaceOutcome) (c : ShellCallSite)
    (rest : List ShellCallSite) :
    runOnce env race initOnceState (c :: rest) =
      ({ onceDone := true, shell := detectUserShell env race }, 1) := by
  have hstep : stepOnce env race initOnceState c =
      ({ onceDone := true, shell := detectUserShell env race }, true) := by
    cases c <;> rfl
  have hrun := runOnce_of_done env race
    { onceDone := true, shell := detectUserShell env race } rfl rest
  simp [runOnce, hstep, hrun]

/-- C7: in every interleaving of the two call sites guarded by
shellDetectOnce (the background start-up goroutine and the on-demand
call in getPathViaFZF), the detection logic runs at most once, and once
the detected shell value is nonempty it never changes for the rest of
the trace. -/
theorem c7_shell_detection_at_most_once (env : ShellEnv) (race : RaceOutcome)
    (t1 t2 : List ShellCallSite) :
    (runOnce env race initOnceState (t1 ++ t2)).2 ≤ 1 ∧
    ((runOnce env race initOnceState t1).1.shell ≠ "" →
      (runOnce env race initOnceState (t1 ++ t2)).1.shell =
        (runOnce env race initOnceState t1).1.shell) := by
  cases t1 with
  | nil =>
    constructor
    · cases t2 with
      | nil => simp [runOnce]
      | cons c rest =>
        rw [List.nil_append, runOnce_init_cons]
    · intro h
      exact absurd rfl h
  | cons c rest =>
    have h1 := runOnce_init_cons env race c rest
    have h2 := runOnce_init_cons env race c (rest ++ t2)
    constructor
    · rw [List.cons_append, h2]
    · intro _
      rw [List.cons_append, h2, h1]

/-- C7 (witness): the once-guard theorem on the concrete trace in which
the background call site fires first and the on-demand one second,
under the bare environment (where detection times out to "sh"). -/
theorem c7_shell_detection_witness :
    (runOnce shellEnvBare RaceOutcome.timeout initOnceState
      ([ShellCallSite.background] ++ [ShellCallSite.onDemand])).2 ≤ 1 ∧
    (runOnce shellEnvBare RaceOutcome.timeout initOnceState
      ([ShellCallSite.background] ++ [ShellCallSite.onDemand])).1.shell =
      (runOnce shellEnvBare RaceOutcome.timeout initOnceState
        [ShellCallSite.background]).1.shell :=
  ⟨(c7_shell_detection_at_most_once shellEnvBare RaceOutcome.timeout
      [ShellCallSite.background] [ShellCallSite.onDemand]).1,
   (c7_shell_detection_at_most_once shellEnvBare RaceOutcome.timeout
      [ShellCallSite.background] [ShellCallSite.onDemand]).2 (by decide)⟩

def listGood (env : PathEnv) (l : List (String × String)) : Prop :=
  ∀ k v, (k, v) ∈ l → canonicalPath env k = some v

lemma lookupAssoc_mem (l : List (String × String)) (k v : String)
    (h : lookupAssoc l k = some v) : (k, v) ∈ l := by
  induction l with
  | nil => simp [lookupAssoc] at h
  | cons e rest ih =>
    obtain ⟨k2, v2⟩ := e
    by_cases hk : k2 = k
    · subst hk
      simp [lookupAssoc] at h
      subst h
      exact List.mem_cons_self _ _
    · simp [lookupAssoc, hk] at h
      exact List.mem_cons_of_mem _ (ih h)

lemma lookupAssoc_head (k v : String) (c : List (String × String)) :
    lookupAssoc ((k, v) :: c) k = some v := by
  simp [lookupAssoc]

lemma cachedLookPath_hit (env : PathEnv) (st : PathState) (name p : String)
    (h : lookupAssoc st.cache name = some p) :
    cachedLookPath env st name = (Except.ok p, st) := by
  simp [cachedLookPath, h]

lemma cachedLookPath_ok_cached (env : PathEnv) (st : PathState) (name p : String)
    (h : (cachedLookPath env st name).1 = Except.ok p) :
    lookupAssoc (cachedLookPath env st name).2.cache name = some p := by
  cases hl : lookupAssoc st.cache name with
  | some q =>
    have h2 : q = p := by simpa [cachedLookPath, hl] using h
    subst h2
    rw [cachedLookPath_hit env st name q hl]
    exact hl
  | none =>
    by_cases hb : name = "cd" ∨ name = "echo" ∨ name = "exit"
    · have h2 : name = p := by simpa [cachedLookPath, hl, hb] using h
      have hstep : (cachedLookPath env st name).2.cache = (name, name) :: st.cache := by
        simp [cachedLookPath, hl, hb]
      rw [hstep, ← h2]
      exact lookupAssoc_head _ _ _
    · by_cases ha : isAbsPath name = true
      · by_cases hst : env.statOk name = true
        · have h2 : name = p := by simpa [cachedLookPath, hl, hb, ha, hst] using h
          have hstep : (cachedLookPath env st name).2.cache = (name, name) :: st.cache := by
            simp [cachedLookPath, hl, hb, ha, hst]
          rw [hstep, ← h2]
          exact lookupAssoc_head _ _ _
        · simp [cachedLookPath, hl, hb, ha, hst] at h
      · cases hlp : env.lookPath name with
        | none => simp [cachedLookPath, hl, hb, ha, hlp] at h
        | some q =>
          have h2 : q = p := by simpa [cachedLookPath, hl, hb, ha, hlp] using h
          have hstep : (cachedLookPath env st name).2.cache = (name, q) :: st.cache := by
            simp [cachedLookPath, hl, hb, ha, hlp]
          rw [hstep, ← h2]
          exact lookupAssoc_head _ _ _

lemma commonCommands_plain : ∀ n ∈ commonCommands,
    ¬(n = "cd" ∨ n = "echo" ∨ n = "exit") ∧ isAbsPath n = false := by
  decide

lemma listGood_cons (env : PathEnv) (c : List (String × String)) (n w : String)
    (h : listGood env c) (hc : canonicalPath env n = some w) :
    listGood env ((n, w) :: c) := by
  intro k v hm
  rcases List.mem_cons.mp hm with hm | hm
  · have hk : k = n := congrArg Prod.fst hm
    have hv : v = w := congrArg Prod.snd hm
    subst hk
    subst hv
    exact hc
  · exact h k v hm

lemma stepPath_good (env : PathEnv) (st : PathState) (op : PathOp)
    (h : listGood env st.cache) : listGood env (stepPath env st op).cache := by
  cases op with
  | lookup n =>
    show listGood env (cachedLookPath env st n).2.cache
    cases hl : lookupAssoc st.cache n with
    | some q =>
      rw [cachedLookPath_hit env st n q hl]
      exact h
    | none =>
      by_cases hb : n = "cd" ∨ n = "echo" ∨ n = "exit"
      · have hstep : (cachedLookPath env st n).2.cache = (n, n) :: st.cache := by
          simp [cachedLookPath, hl, hb]
        rw [hstep]
        exact listGood_cons env _ n n h (by simp [canonicalPath, hb])
      · by_cases ha : isAbsPath n = true
        · by_cases hst : env.statOk n = true
          · have hstep : (cachedLookPath env st n).2.cache = (n, n) :: st.cache := by
              simp [cachedLookPath, hl, hb, ha, hst]
            rw [hstep]
            exact listGood_cons env _ n n h (by simp [canonicalPath, hb, ha, hst])
          · have hstep : (cachedLookPath env st n).2.cache = st.cache := by
              simp [cachedLookPath, hl, hb, ha, hst]
            rw [hstep]
            exact h
        · cases hlp : env.lookPath n with
          | none =>
            have hstep : (cachedLookPath env st n).2.cache = st.cache := by
              simp [cachedLookPath, hl, hb, ha, hlp]
            rw [hstep]
            exact h
          | some q =>
            have hstep : (cachedLookPath env st n).2.cache = (n, q) :: st.cache := by
              simp [cachedLookPath, hl, hb, ha, hlp]
            rw [hstep]
            exact listGood_cons env _ n q h (by simp [canonicalPath, hb, ha, hlp])
  | prewarm n =>
    by_cases hc : n ∈ commonCommands
    · have hplain := commonCommands_plain n hc
      cases hlp : env.lookPath n with
      | none =>
        have hstep : (stepPath env st (PathOp.prewarm n)).cache = st.cache := by
          simp [stepPath, hc, hlp]
        rw [hstep]
        exact h
      | some q =>
        have hstep : (stepPath env st (PathOp.prewarm n)).cache = (n, q) :: st.cache := by
          simp [stepPath, hc, hlp]
        rw [hstep]
        refine listGood_cons env _ n q h ?_
        simp [canonicalPath, hplain.1, hplain.2, hlp]
    · have hstep : (stepPath env st (PathOp.prewarm n)).cache = st.cache := by
        simp [stepPath, hc]
      rw [hstep]
      exact h

lemma runPath_good (env : PathEnv) : ∀ (t : List PathOp) (st : PathState),
    listGood env st.cache → listGood env (runPath env st t).cache := by
  intro t
  induction t with
  | nil => intro st h; exact h
  | cons op rest ih =>
    intro st h
    exact ih _ (stepPath_good env st op h)

lemma stepPath_cache_extends (env : PathEnv) (st : PathState) (op : PathOp) :
    ∃ pre, (stepPath env st op).cache = pre ++ st.cache := by
  cases op with
  | lookup n =>
    show ∃ pre, (cachedLookPath env st n).2.cache = pre ++ st.cache
    cases hl : lookupAssoc st.cache n with
    | some q => exact ⟨[], by rw [cachedLookPath_hit env st n q hl]; simp⟩
    | none =>
      by_cases hb : n = "cd" ∨ n = "echo" ∨ n = "exit"
      · exact ⟨[(n, n)], by simp [cachedLookPath, hl, hb]⟩
      · by_cases ha : isAbsPath n = true
        · by_cases hst : env.statOk n = true
          · exact ⟨[(n, n)], by simp [cachedLookPath, hl, hb, ha, hst]⟩
          · exact ⟨[], by simp [cachedLookPath, hl, hb, ha, hst]⟩
        · cases hlp : env.lookPath n with
          | none => exact ⟨[], by simp [cachedLookPath, hl, hb, ha, hlp]⟩
          | some q => exact ⟨[(n, q)], by simp [cachedLookPath, hl, hb, ha, hlp]⟩
  | prewarm n =>
    by_cases hc : n ∈ commonCommands
    · cases hlp : env.lookPath n with
      | none => exact ⟨[], by simp [stepPath, hc, hlp]⟩
      | some q => exact ⟨[(n, q)], by simp [stepPath, hc, hlp]⟩
    · exact ⟨[], by simp [stepPath, hc]⟩

lemma runPath_cache_extends (env : PathEnv) : ∀ (t : List PathOp) (st : PathState),
    ∃ pre, (runPath env st t).cache = pre ++ st.cache := by
  intro t
  induction t with
  | nil => intro st; exact ⟨[], rfl⟩
  | cons op rest ih =>
    intro st
    obtain ⟨pre1, h1⟩ := stepPath_cache_extends env st op
    obtain ⟨pre2, h2⟩ := ih (stepPath env st op)
    exact ⟨pre2 ++ pre1, by rw [runPath, h2, h1, List.append_assoc]⟩

lemma lookupAssoc_append_good (env : PathEnv) (c : List (String × String))
    (k v : String) (h : lookupAssoc c k = some v) :
    ∀ pre, listGood env (pre ++ c) → lookupAssoc (pre ++ c) k = some v := by
  intro pre
  induction pre with
  | nil => intro _; exact h
  | cons e rest ih =>
    obtain ⟨k2, v2⟩ := e
    intro hg
    by_cases hk : k2 = k
    · subst hk
      have h1 : canonicalPath env k2 = some v2 :=
        hg k2 v2 (List.mem_cons_self _ _)
      have h2 : canonicalPath env k2 = some v := by
        refine hg k2 v ?_
        exact List.mem_append.mpr (Or.inr (lookupAssoc_mem c k2 v h))
      have hv : v2 = v := by
        rw [h1] at h2
        exact Option.some.inj h2
      rw [List.cons_append, hv]
      exact lookupAssoc_head _ _ _
    · rw [List.cons_append]
      have hstep : lookupAssoc ((k2, v2) :: (rest ++ c)) k = lookupAssoc (rest ++ c) k := by
        simp [lookupAssoc, hk]
      rw [hstep]
      refine ih ?_
      intro a b hm
      exact hg a b (List.mem_cons_of_mem _ hm)

lemma runPath_append (env : PathEnv) : ∀ (t1 t2 : List PathOp) (st : PathState),
    runPath env st (t1 ++ t2) = runPath env (runPath env st t1) t2 := by
  intro t1
  induction t1 with
  | nil => intro t2 st; rfl
  | cons op rest ih =>
    intro t2 st
    rw [List.cons_append]
    exact ih t2 (stepPath env st op)

/-- C4: a command name that resolves successfully is cached by that
resolution, so its second resolution returns the identical path and
leaves the whole state (including the external-search counter)
untouched; and over any interleaving of synchronous lookups and
concurrent pre-warm writers starting from the empty cache, a cache
entry once readable is never changed to a different value (every
writer stores the same environment-determined value, so later reads of
the key keep returning it). -/
theorem c4_path_cache_idempotent (env : PathEnv) :
    (∀ (st : PathState) (name p : String),
      (cachedLookPath env st name).1 = Except.ok p →
      cachedLookPath env (cachedLookPath env st name).2 name =
        (Except.ok p, (cachedLookPath env st name).2)) ∧
    (∀ (t1 t2 : List PathOp) (k v : String),
      lookupAssoc (runPath env initPathState t1).cache k = some v →
      lookupAssoc (runPath env initPathState (t1 ++ t2)).cache k = some v) := by
  constructor
  · intro st name p h
    exact cachedLookPath_hit env _ name p (cachedLookPath_ok_cached env st name p h)
  · intro t1 t2 k v h
    rw [runPath_append env t1 t2 initPathState]
    obtain ⟨pre, hpre⟩ := runPath_cache_extends env t2 (runPath env initPathState t1)
    rw [hpre]
    refine lookupAssoc_append_good env _ k v h pre ?_
    rw [← hpre, ← runPath_append env t1 t2 initPathState]
    refine runPath_good env _ _ ?_
    intro a b hm
    simp [initPathState] at hm


/-- A PATH environment with exactly one resolvable command, for
exercising the path-cache theorem. -/
def pathEnvW : PathEnv :=
  { lookPath := fun n => if n = "fzf" then some "/usr/bin/fzf" else none,
    statOk := fun _ => false }

/-- C4 (witness): the path-cache theorem at a concrete command resolved
from the empty state, and at a concrete trace extended by a pre-warm
write. -/
theorem c4_path_cache_witness :
    cachedLookPath pathEnvW (cachedLookPath pathEnvW initPathState "fzf").2 "fzf" =
      (Except.ok "/usr/bin/fzf", (cachedLookPath pathEnvW initPathState "fzf").2) ∧
    lookupAssoc (runPath pathEnvW initPathState
      ([PathOp.lookup "fzf"] ++ [PathOp.prewarm "sh"])).cache "fzf" =
      some "/usr/bin/fzf" :=
  ⟨(c4_path_cache_idempotent pathEnvW).1 initPathState "fzf" "/usr/bin/fzf" rfl,
   (c4_path_cache_idempotent pathEnvW).2 [PathOp.lookup "fzf"] [PathOp.prewarm "sh"]
     "fzf" "/usr/bin/fzf" rfl⟩


/-- A file system in which no path is a directory, although a home
directory is configured. -/
def fsEnvAllBad : FSEnv :=
  { isDir := fun _ => false, home := some "/home/user" }

/-- C1 (counterexample): with the starting directory invalid and the
home-directory fallback also invalid, the run never invokes the picker
but the process exits with code 0 — main maps every error of
getPathViaFZF to os.Exit(0) (src/fzf-open.go line 268) — refuting the
claim that this case exits with a nonzero code. -/
theorem c1_counterexample_exit_zero :
    (mainModel fsEnvAllBad "/bad/dir" (fun _ => none) (fun _ => false)).exitCode = 0 ∧
    (mainModel fsEnvAllBad "/bad/dir" (fun _ => none) (fun _ => false)).pickerInvoked = false :=
  ⟨rfl, rfl⟩

/-- C1 (amended): if the configured starting directory is invalid, the
directory phase falls back to the home directory (proceeding with it
when it is valid); and if the fallback is also invalid — or no home
directory can be determined — getPathViaFZF returns an error without
invoking the picker, and the process exits with code 0 (printing a
fallback warning, but not a nonzero exit as the original claim
states). -/
theorem c1_fallback_amended (env : FSEnv) (startingDir : String)
    (picker : String → Option String) (openOk : String → Bool)
    (hbad : env.isDir startingDir = false) :
    (∀ h, env.home = some h → env.isDir h = true →
      dirPhase env startingDir = DirPhase.ok h) ∧
    ((∀ h, env.home = some h → env.isDir h = false) →
      mainModel env startingDir picker openOk =
        { exitCode := 0, pickerInvoked := false }) := by
  constructor
  · intro h hh hd
    simp [dirPhase, hbad, hh, hd]
  · intro hfall
    cases hh : env.home with
    | none => simp [mainModel, dirPhase, hbad, hh]
    | some hd => simp [mainModel, dirPhase, hbad, hh, hfall hd hh]

/-- A file system in which only the home directory is a valid
directory. -/
def fsEnvHomeOk : FSEnv :=
  { isDir := fun d => if d = "/home/user" then true else false,
    home := some "/home/user" }

/-- C1 (witness): the amended theorem at concrete environments — the
fallback succeeds when home is valid, and the process exits 0 without
the picker when everything is invalid. -/
theorem c1_fallback_witness :
    dirPhase fsEnvHomeOk "/bad/dir" = DirPhase.ok "/home/user" ∧
    mainModel fsEnvAllBad "/bad/dir" (fun _ => none) (fun _ => false) =
      { exitCode := 0, pickerInvoked := false } :=
  ⟨(c1_fallback_amended fsEnvHomeOk "/bad/dir" (fun _ => none) (fun _ => false) rfl).1
      "/home/user" rfl rfl,
   (c1_fallback_amended fsEnvAllBad "/bad/dir" (fun _ => none) (fun _ => false) rfl).2
      (fun _ _ => rfl)⟩

end FzfOpen
